import Mathlib

/-!
Verification of the structural deep-equality engine (`equal` and its helpers)
from the repository snippet, against its natural-language specification.

The JavaScript source is shallowly embedded as follows:
* `JSValue` models the values the engine can receive.  Composite values
  (dates, regexps, errors, arrays, typed arrays, plain/user objects, maps,
  sets) carry a `ref : Nat` reference identity: in JavaScript two separately
  constructed objects are distinct references, and `===` on objects compares
  references.  Symbols and functions carry an identity number as well.
* Numbers are `JSNum`: the NaN sentinel, signed infinities, or a finite
  rational (the distinction between the two signed zeros and the precise
  IEEE-754 grid are not
  modelled; no claim depends on them).
* Fallible operations return `Option`/`EvalResult`; a thrown `TypeError`
  is `none`/`.typeError`.
* The engine's recursion is modelled with an explicit fuel parameter
  (`equalF fuel cfg a b`); the source diverges only on cyclic inputs, which
  tree-shaped `JSValue`s cannot express, so any sufficiently large fuel
  computes the source's answer.  `.outOfFuel` marks an exhausted budget.
* The two process-wide configuration flags are threaded as a `Config`
  value read at comparison time, mirroring `equal.allow_type_coercion` and
  `equal.check_all_properties`.
-/

/-- A JavaScript number: the not-a-number sentinel, an infinity with its
sign, or a finite value (modelled as a rational). -/
inductive JSNum where
  | nan
  | inf (pos : Bool)
  | finite (q : ℚ)
deriving DecidableEq

/-- The nine fixed-width numeric buffer kinds listed in the source's
typed-array registration loop. -/
inductive TKind where
  | int8 | uint8 | uint8c | int16 | uint16 | int32 | uint32 | float32 | float64
deriving DecidableEq

/-- A JavaScript value as received by `equal`.  Composite values carry a
reference identity `ref`; `props` lists a composite's own enumerable
string-keyed properties (for arrays and typed arrays these are the
non-index properties; index properties are derived from `elems`). -/
inductive JSValue where
  | null
  | undefined
  | bool (b : Bool)
  | num (n : JSNum)
  | bigint (z : ℤ)
  | str (s : String)
  | sym (id : ℕ)
  | func (id : ℕ)
  | date (ref : ℕ) (time : JSNum)
  | regexp (ref : ℕ) (source : String) (flags : String)
  | error (ref : ℕ) (msg : String)
  | arr (ref : ℕ) (elems : List JSValue) (props : List (String × JSValue))
  | tarr (ref : ℕ) (kind : TKind) (elems : List JSNum) (props : List (String × JSValue))
  | obj (ref : ℕ) (cname : String) (props : List (String × JSValue))
  | map (ref : ℕ) (entries : List (JSValue × JSValue)) (props : List (String × JSValue))
  | set (ref : ℕ) (elems : List JSValue) (props : List (String × JSValue))

/-- The two process-wide configuration flags of the engine
(`equal.allow_type_coercion`, default true, and
`equal.check_all_properties`, default false). -/
structure Config where
  allow_type_coercion : Bool
  check_all_properties : Bool
deriving DecidableEq

/-- Outcome of running the engine: a returned boolean, a thrown
`TypeError`, or an exhausted recursion budget (a model artifact that the
source only exhibits as stack overflow on cyclic input). -/
inductive EvalResult where
  | ok (b : Bool)
  | typeError
  | outOfFuel
deriving DecidableEq

namespace JSNum

/-- `isNaN` on a number value (the dispatch table's Number predicate only
ever applies it to numbers). -/
def isNaN : JSNum → Bool
  | .nan => true
  | _ => false

end JSNum

/-- Strict (`===`) equality on two numbers: NaN equals nothing, infinities
compare by sign, finite values by value. -/
def numStrictEq : JSNum → JSNum → Bool
  | .nan, _ => false
  | _, .nan => false
  | .inf p, .inf q => p == q
  | .inf _, .finite _ => false
  | .finite _, .inf _ => false
  | .finite a, .finite b => a == b

/-- Loose (`==`) equality restricted to two numbers; identical to strict
equality on numbers. -/
def numEqJS : JSNum → JSNum → Bool := numStrictEq

/-- Number minus number (used by the Date predicate `a - b == 0`);
NaN-propagating, infinity-aware. -/
def jsNumSub : JSNum → JSNum → JSNum
  | .nan, _ => .nan
  | _, .nan => .nan
  | .inf p, .inf q => if p == q then .nan else .inf p
  | .inf p, .finite _ => .inf p
  | .finite _, .inf q => .inf !q
  | .finite a, .finite b => .finite (a - b)

/-- `ToNumber` of a boolean. -/
def boolToNum (b : Bool) : JSNum := .finite (if b then 1 else 0)

/-- `number == bigint`: true exactly when the number is finite and has the
same mathematical value. -/
def numEqBigInt : JSNum → ℤ → Bool
  | .finite q, z => q == (z : ℚ)
  | _, _ => false

/-- `String()` of a number.  Integers print exactly; the decimal expansion
of non-integral values is modelled opaquely (no claim depends on it). -/
def numToString : JSNum → String
  | .nan => "NaN"
  | .inf true => "Infinity"
  | .inf false => "-Infinity"
  | .finite q => if q.den = 1 then toString q.num else toString q.num ++ "/" ++ toString q.den

/-- Value of a non-empty list of decimal digits. -/
def digitsVal (cs : List Char) : ℕ :=
  cs.foldl (fun acc ch => 10 * acc + (ch.toNat - '0'.toNat)) 0

/-- Parse an unsigned decimal mantissa (digits, optionally with a dot and a
fraction part). -/
def decMantissa? (cs : List Char) : Option ℚ :=
  let intPart := cs.takeWhile (fun ch => ch.isDigit)
  let rest := cs.dropWhile (fun ch => ch.isDigit)
  match rest with
  | [] => if intPart.isEmpty then none else some ((digitsVal intPart : ℚ))
  | '.' :: frac =>
      if frac.all (fun ch => ch.isDigit) && !(intPart.isEmpty && frac.isEmpty) then
        some ((digitsVal intPart : ℚ) + (digitsVal frac : ℚ) / ((10 : ℚ) ^ frac.length))
      else none
  | _ => none

/-- Strip leading and trailing whitespace from a character list (the
model's string trim). -/
def trimChars (cs : List Char) : List Char :=
  ((cs.dropWhile (fun ch => ch.isWhitespace)).reverse.dropWhile
    (fun ch => ch.isWhitespace)).reverse

/-- `ToNumber` of a string: trimmed empty string is 0, the Infinity
literals, or an optionally signed decimal numeral; anything else is NaN.
(Exponent, hex, octal and binary literals are not modelled; no claim
involves them.) -/
def toNumberOfString (s : String) : JSNum :=
  let t := trimChars s.toList
  if t.isEmpty then .finite 0
  else if t = "Infinity".toList || t = "+Infinity".toList then .inf true
  else if t = "-Infinity".toList then .inf false
  else
    match t with
    | '+' :: rest => (match decMantissa? rest with | some q => .finite q | none => .nan)
    | '-' :: rest => (match decMantissa? rest with | some q => .finite (-q) | none => .nan)
    | cs => (match decMantissa? cs with | some q => .finite q | none => .nan)

/-- `StringToBigInt`: trimmed empty string is 0, otherwise an optionally
signed decimal numeral; `none` for anything else (which makes the loose
comparison false, not a throw). -/
def strToBigInt (s : String) : Option ℤ :=
  let digitsInt? : List Char → Option ℤ := fun cs =>
    if !cs.isEmpty && cs.all (fun ch => ch.isDigit) then some ((digitsVal cs : ℤ)) else none
  let t := trimChars s.toList
  if t.isEmpty then some 0
  else
    match t with
    | '+' :: rest => digitsInt? rest
    | '-' :: rest => (digitsInt? rest).map (fun z => -z)
    | cs => digitsInt? cs

/-- Strict (`===`) equality, the source's first short-circuit.  On
composites it is reference identity; on primitives, value identity (with
NaN equal to nothing). -/
def jsStrictEq : JSValue → JSValue → Bool
  | .null, .null => true
  | .undefined, .undefined => true
  | .bool a, .bool b => a == b
  | .num a, .num b => numStrictEq a b
  | .bigint a, .bigint b => a == b
  | .str a, .str b => a == b
  | .sym i, .sym j => i == j
  | .func i, .func j => i == j
  | .date r _, .date s _ => r == s
  | .regexp r _ _, .regexp s _ _ => r == s
  | .error r _, .error s _ => r == s
  | .arr r _ _, .arr s _ _ => r == s
  | .tarr r _ _ _, .tarr s _ _ _ => r == s
  | .obj r _ _, .obj s _ _ => r == s
  | .map r _ _, .map s _ _ => r == s
  | .set r _ _, .set s _ _ => r == s
  | _, _ => false

/-- Is this value the Number NaN sentinel? -/
def isNanNum : JSValue → Bool
  | .num .nan => true
  | _ => false

/-- SameValueZero, the lookup relation of `Map.prototype.get` /
`Set.prototype.has`: strict equality except that NaN matches NaN. -/
def sameValueZero (x y : JSValue) : Bool :=
  (isNanNum x && isNanNum y) || jsStrictEq x y

/-- The identity tag of a value: what `===` compares.  Composites project
to their reference, primitives to their value.  Two non-NaN values are
strictly equal exactly when their tags coincide. -/
inductive IdTag where
  | vnull
  | vundef
  | vbool (b : Bool)
  | vnum (n : JSNum)
  | vbigint (z : ℤ)
  | vstr (s : String)
  | vsym (id : ℕ)
  | vfunc (id : ℕ)
  | rdate (ref : ℕ)
  | rregexp (ref : ℕ)
  | rerror (ref : ℕ)
  | rarr (ref : ℕ)
  | rtarr (ref : ℕ)
  | robj (ref : ℕ)
  | rmap (ref : ℕ)
  | rset (ref : ℕ)
deriving DecidableEq

/-- Project a value to its identity tag. -/
def canon : JSValue → IdTag
  | .null => .vnull
  | .undefined => .vundef
  | .bool b => .vbool b
  | .num n => .vnum n
  | .bigint z => .vbigint z
  | .str s => .vstr s
  | .sym i => .vsym i
  | .func i => .vfunc i
  | .date r _ => .rdate r
  | .regexp r _ _ => .rregexp r
  | .error r _ => .rerror r
  | .arr r _ _ => .rarr r
  | .tarr r _ _ _ => .rtarr r
  | .obj r _ _ => .robj r
  | .map r _ _ => .rmap r
  | .set r _ _ => .rset r

/-- The runtime type classifier `get_type = (a) => a.constructor.name`.
It throws a `TypeError` (here `none`) on `null` and `undefined`, which
have no `constructor` property to read. -/
def TKind.name : TKind → String
  | .int8 => "Int8Array"
  | .uint8 => "Uint8Array"
  | .uint8c => "Uint8ClampedArray"
  | .int16 => "Int16Array"
  | .uint16 => "Uint16Array"
  | .int32 => "Int32Array"
  | .uint32 => "Uint32Array"
  | .float32 => "Float32Array"
  | .float64 => "Float64Array"

def get_type : JSValue → Option String
  | .null => none
  | .undefined => none
  | .bool _ => some "Boolean"
  | .num _ => some "Number"
  | .bigint _ => some "BigInt"
  | .str _ => some "String"
  | .sym _ => some "Symbol"
  | .func _ => some "Function"
  | .date _ _ => some "Date"
  | .regexp _ _ _ => some "RegExp"
  | .error _ _ => some "Error"
  | .arr _ _ _ => some "Array"
  | .tarr _ k _ _ => some k.name
  | .obj _ c _ => some c
  | .map _ _ _ => some "Map"
  | .set _ _ _ => some "Set"

/-- Values that behave as objects for `==` (functions included). -/
def isComposite : JSValue → Bool
  | .date _ _ => true
  | .regexp _ _ _ => true
  | .error _ _ => true
  | .arr _ _ _ => true
  | .tarr _ _ _ _ => true
  | .obj _ _ _ => true
  | .map _ _ _ => true
  | .set _ _ _ => true
  | .func _ => true
  | _ => false

def isNullish : JSValue → Bool
  | .null => true
  | .undefined => true
  | _ => false

/-- Outcome of a string conversion: a value, a thrown `TypeError`, or an
exhausted recursion budget (model artifact for nested-array joins). -/
inductive StrEval where
  | val (s : String)
  | thrown
  | spent
deriving DecidableEq

/-- How `Array.prototype.join` stringifies one element: null and
undefined become the empty string, anything else converts via `f`. -/
def elemToStr (f : JSValue → StrEval) : JSValue → StrEval
  | .null => .val ""
  | .undefined => .val ""
  | v => f v

/-- `Array.prototype.join` with separator ",": stringify each element;
a throw propagates. -/
def joinWith (f : JSValue → StrEval) : List JSValue → StrEval
  | [] => .val ""
  | [x] => elemToStr f x
  | x :: rest =>
      match elemToStr f x, joinWith f rest with
      | .val sx, .val sr => .val (sx ++ "," ++ sr)
      | .thrown, _ => .thrown
      | .spent, _ => .spent
      | _, .thrown => .thrown
      | _, .spent => .spent

/-- `String()` of a value, with an explicit recursion budget for nested
arrays (`equalF` passes its own budget down; any budget at least the array
nesting depth computes the conversion).  `String(Symbol())` throws; Date
and function source strings are modelled opaquely. -/
def jsToStrF : ℕ → JSValue → StrEval
  | 0, _ => .spent
  | _ + 1, .null => .val "null"
  | _ + 1, .undefined => .val "undefined"
  | _ + 1, .bool b => .val (if b then "true" else "false")
  | _ + 1, .num n => .val (numToString n)
  | _ + 1, .bigint z => .val (toString z)
  | _ + 1, .str s => .val s
  | _ + 1, .sym _ => .thrown
  | _ + 1, .func _ => .val "function"
  | _ + 1, .date _ t => .val ("Date(" ++ numToString t ++ ")")
  | _ + 1, .regexp _ src fl => .val ("/" ++ src ++ "/" ++ fl)
  | _ + 1, .error _ msg => .val (if msg = "" then "Error" else "Error: " ++ msg)
  | m + 1, .arr _ es _ => joinWith (jsToStrF m) es
  | _ + 1, .tarr _ _ es _ => .val (String.intercalate "," (es.map numToString))
  | _ + 1, .obj _ _ _ => .val "[object Object]"
  | _ + 1, .map _ _ _ => .val "[object Object]"
  | _ + 1, .set _ _ _ => .val "[object Object]"

/-- Outcome of `ToPrimitive`: a (primitive) value, a throw, or an
exhausted budget. -/
inductive PrimEval where
  | val (v : JSValue)
  | thrown
  | spent

/-- `ToPrimitive` as used by `==`: composites convert via their string
conversion (plain objects, maps and sets to "[object Object]", arrays via
join, dates via their date string); primitives are already primitive. -/
def toPrimF (m : ℕ) (v : JSValue) : PrimEval :=
  if isComposite v then
    match jsToStrF m v with
    | .val s => .val (.str s)
    | .thrown => .thrown
    | .spent => .spent
  else .val v

/-- Replace a boolean by its `ToNumber` image, as `==` does before
comparing a boolean with anything. -/
def debool : JSValue → JSValue
  | .bool b => .num (boolToNum b)
  | v => v

/-- Loose equality on two primitive, non-boolean values. -/
def loosePrimCore : JSValue → JSValue → Bool
  | .null, .null => true
  | .null, .undefined => true
  | .undefined, .null => true
  | .undefined, .undefined => true
  | .num x, .num y => numEqJS x y
  | .str a, .str b => a == b
  | .bigint a, .bigint b => a == b
  | .sym i, .sym j => i == j
  | .num x, .str s => numEqJS x (toNumberOfString s)
  | .str s, .num x => numEqJS (toNumberOfString s) x
  | .num x, .bigint z => numEqBigInt x z
  | .bigint z, .num x => numEqBigInt x z
  | .str s, .bigint z => (match strToBigInt s with | some w => w == z | none => false)
  | .bigint z, .str s => (match strToBigInt s with | some w => z == w | none => false)
  | _, _ => false

/-- Loose (`==`) equality.  Two objects compare by reference; null and
undefined never loosely equal an object; otherwise both sides are taken to
primitives (which can throw on symbols inside a stringified composite;
the left operand converts first), booleans are converted to numbers, and
the primitive cases apply.  At most one operand is composite here, so at
most one conversion can throw or run out of budget. -/
def jsLooseEqF (m : ℕ) (a b : JSValue) : EvalResult :=
  if isComposite a && isComposite b then .ok (jsStrictEq a b)
  else if isNullish a && isComposite b then .ok false
  else if isComposite a && isNullish b then .ok false
  else
    match toPrimF m a, toPrimF m b with
    | .val x, .val y => .ok (loosePrimCore (debool x) (debool y))
    | .thrown, _ => .typeError
    | .spent, _ => .outOfFuel
    | _, .thrown => .typeError
    | _, .spent => .outOfFuel

/-- Index properties of an array: entries ("0", e0), ("1", e1), ... -/
def idxEntries (i : ℕ) : List JSValue → List (String × JSValue)
  | [] => []
  | x :: xs => (toString i, x) :: idxEntries (i + 1) xs

/-- Index properties of a typed array (elements read back as numbers). -/
def numIdxEntries (i : ℕ) : List JSNum → List (String × JSValue)
  | [] => []
  | x :: xs => (toString i, .num x) :: numIdxEntries (i + 1) xs

/-- A value's own enumerable string-keyed properties, as `Object.keys` and
property reads see them.  Map entries and Set elements are internal slots,
not own properties; Date, RegExp and Error expose no own enumerable
properties. -/
def objEntries : JSValue → List (String × JSValue)
  | .arr _ es ps => idxEntries 0 es ++ ps
  | .tarr _ _ es ps => numIdxEntries 0 es ++ ps
  | .obj _ _ ps => ps
  | .map _ _ ps => ps
  | .set _ _ ps => ps
  | _ => []

/-- `Object.keys` (own enumerable property names, unsorted). -/
def objKeys (v : JSValue) : List String := (objEntries v).map Prod.fst

/-- Property read `v[k]`: the first own entry named `k`, else undefined. -/
def getProp (v : JSValue) (k : String) : JSValue :=
  match (objEntries v).find? (fun p => p.1 == k) with
  | some p => p.2
  | none => .undefined

/-- Lexicographic comparison of character lists by code point (the
default `.sort()` comparator compares key strings by code unit; for the
identifier-like keys involved here the two orders agree). -/
def charListLe : List Char → List Char → Bool
  | [], _ => true
  | _ :: _, [] => false
  | a :: as, b :: bs =>
      if a.toNat < b.toNat then true
      else if b.toNat < a.toNat then false
      else charListLe as bs

/-- String comparison used by the key sort. -/
def strLe (s t : String) : Bool := charListLe s.toList t.toList

/-- `.sort()` on an array of keys (default lexicographic comparator). -/
def sortStrings (l : List String) : List String :=
  l.insertionSort (fun s t => strLe s t = true)

/-- The source's `sorted_identical`: same length and pairwise equal. -/
def sorted_identical (a b : List String) : Bool :=
  a.length == b.length && (a.zip b).all (fun p => p.1 == p.2)

/-- `b.indexOf(x)` followed by `b.splice(idx, 1)`: remove the first
element strictly equal to `x`, or fail. -/
def removeFirst? : List JSValue → JSValue → Option (List JSValue)
  | [], _ => none
  | y :: ys, x => if jsStrictEq y x then some ys else (removeFirst? ys x).map (fun l => y :: l)

/-- The source's `unsorted_identical`: greedily match every element of `a`
against a strictly-equal element of `b`, consuming matches. -/
def unsorted_identical : List JSValue → List JSValue → Bool
  | [], _ => true
  | x :: rest, b =>
      match removeFirst? b x with
      | none => false
      | some b' => unsorted_identical rest b'

/-- `Map.prototype.get`: the value of the first entry whose key is
SameValueZero-equal to `k`, else undefined. -/
def mapGet : JSValue → JSValue → JSValue
  | .map _ es _, k =>
      (match es.find? (fun e => sameValueZero e.1 k) with
       | some e => e.2
       | none => .undefined)
  | _, _ => .undefined

/-- `Set.prototype.has` over the element list. -/
def setHas (es : List JSValue) (x : JSValue) : Bool :=
  es.any (fun y => sameValueZero y x)

/-- Run the recursive comparison over a list of pairs in order, stopping
at the first result that is not a returned `true` (a returned `false`, a
throw, or an exhausted budget all propagate). -/
def seqEqual (eqF : JSValue → JSValue → EvalResult) : List (JSValue × JSValue) → EvalResult
  | [] => .ok true
  | p :: rest =>
      match eqF p.1 p.2 with
      | .ok true => seqEqual eqF rest
      | r => r

/-- The dispatch table's `Object` predicate: collect each side's own
enumerable property names, sort them, require the sorted lists identical,
then compare the value at each key recursively. -/
def objectTestOn (eqF : JSValue → JSValue → EvalResult) (a b : JSValue) : EvalResult :=
  let ka := sortStrings (objKeys a)
  let kb := sortStrings (objKeys b)
  if sorted_identical ka kb then
    seqEqual eqF (ka.map (fun k => (getProp a k, getProp b k)))
  else .ok false

/-- The `Array` predicate: false on length mismatch; with
`check_all_properties` fall back to the Object rule; otherwise compare
elements index by index.  The shape-mismatch `typeError` arm is a
modelling boundary: it is reachable only if a user-defined class shadows
the name of a built-in constructor, which the model does not attempt to
follow. -/
def arrayTestOn (c : Config) (eqF : JSValue → JSValue → EvalResult) (a b : JSValue) :
    EvalResult :=
  match a, b with
  | .arr _ ea _, .arr _ eb _ =>
      if ea.length != eb.length then .ok false
      else if c.check_all_properties then objectTestOn eqF a b
      else seqEqual eqF (ea.zip eb)
  | _, _ => .typeError

/-- The `Map` predicate: sizes must match; with `check_all_properties` the
Object rule must pass on the extra own properties; the two key lists must
be identical as an unordered collection under strict equality (a spread
copy of `b`'s keys is consumed); finally the per-key values compare
recursively. -/
def mapTestOn (c : Config) (eqF : JSValue → JSValue → EvalResult) (a b : JSValue) :
    EvalResult :=
  match a, b with
  | .map _ ea _, .map _ eb _ =>
      if ea.length != eb.length then .ok false
      else
        let rest : EvalResult :=
          let akeys := ea.map Prod.fst
          if unsorted_identical akeys (eb.map Prod.fst) then
            seqEqual eqF (akeys.map (fun k => (mapGet a k, mapGet b k)))
          else .ok false
        if c.check_all_properties then
          match objectTestOn eqF a b with
          | .ok true => rest
          | .ok false => .ok false
          | e => e
        else rest
  | _, _ => .typeError

/-- The `Set` predicate: sizes must match; with `check_all_properties` the
Object rule must pass; then every element of `a` must be present in `b`
by the set's own SameValueZero membership. -/
def setTestOn (c : Config) (eqF : JSValue → JSValue → EvalResult) (a b : JSValue) :
    EvalResult :=
  match a, b with
  | .set _ ea _, .set _ eb _ =>
      if ea.length != eb.length then .ok false
      else
        let rest : EvalResult := .ok (ea.all (fun x => setHas eb x))
        if c.check_all_properties then
          match objectTestOn eqF a b with
          | .ok true => rest
          | .ok false => .ok false
          | e => e
        else rest
  | _, _ => .typeError

/-- The `Number` predicate `(a, b) => isNaN(a) && isNaN(b)` (only ever
dispatched on two values classified as Number). -/
def numberTest : JSValue → JSValue → EvalResult
  | .num x, .num y => .ok (x.isNaN && y.isNaN)
  | _, _ => .typeError

/-- The `Date` predicate `(a, b) => a - b == 0`. -/
def dateTest : JSValue → JSValue → EvalResult
  | .date _ t, .date _ u => .ok (numEqJS (jsNumSub t u) (.finite 0))
  | _, _ => .typeError

/-- The `RegExp` predicate: equal source text and equal flags. -/
def regexpTest : JSValue → JSValue → EvalResult
  | .regexp _ s1 f1, .regexp _ s2 f2 => .ok (s1 == s2 && f1 == f2)
  | _, _ => .typeError

/-- The `Error` predicate: equal message text. -/
def errorTest : JSValue → JSValue → EvalResult
  | .error _ m1, .error _ m2 => .ok (m1 == m2)
  | _, _ => .typeError

/-- The dispatch `equal_test[a_cons] ?? equal_test.Object`.  The table has
entries for Number, String, Date, RegExp, Array, Object, Map, Set,
Symbol, Function and Error; the typed-array registration loop uses
`for...in` over the name array, so it stores the Array predicate under
the index keys "0".."8" rather than under the typed-array names (see
`forInKeys`) — no constructor name of a representable value matches those
keys, and every unregistered constructor (typed arrays, BigInt, Boolean,
user classes) falls through to the Object rule. -/
def dispatchTest (c : Config) (eqF : JSValue → JSValue → EvalResult) (ta : String)
    (a b : JSValue) : EvalResult :=
  if ta == "Number" then numberTest a b
  else if ta == "String" then .ok false
  else if ta == "Date" then dateTest a b
  else if ta == "RegExp" then regexpTest a b
  else if ta == "Array" then arrayTestOn c eqF a b
  else if ta == "Map" then mapTestOn c eqF a b
  else if ta == "Set" then setTestOn c eqF a b
  else if ta == "Symbol" then .ok (jsStrictEq a b)
  else if ta == "Function" then .ok (jsStrictEq a b)
  else if ta == "Error" then errorTest a b
  else objectTestOn eqF a b

/-- The engine `equal(a, b)` with an explicit recursion budget.
Mirrors the source step by step: the `===` short-circuit; the classifier
on both sides (throwing on null/undefined); the `==` short-circuit with
the coercion guard `allow_type_coercion || same constructor || neither is
String`; false on constructor mismatch; then the dispatch table. -/
def equalF : ℕ → Config → JSValue → JSValue → EvalResult
  | 0, _, _, _ => .outOfFuel
  | m + 1, c, a, b =>
    if jsStrictEq a b then .ok true
    else
      match get_type a with
      | none => .typeError
      | some ta =>
        match get_type b with
        | none => .typeError
        | some tb =>
          match jsLooseEqF (m + 1) a b with
          | .typeError => .typeError
          | .outOfFuel => .outOfFuel
          | .ok l =>
            if l && (c.allow_type_coercion || ta == tb
                || (!(ta == "String") && !(tb == "String"))) then .ok true
            else if ta != tb then .ok false
            else dispatchTest c (equalF m c) ta a b

/-- The source's configuration defaults. -/
def defaultConfig : Config := ⟨true, false⟩

/-- The typed-array names the registration loop intends to alias to the
Array predicate. -/
def typedArrayNames : List String :=
  ["Int8Array", "Uint8Array", "Uint8ClampedArray", "Int16Array", "Uint16Array",
   "Int32Array", "Uint32Array", "Float32Array", "Float64Array"]

/-- The keys a JavaScript `for...in` loop actually visits on an array
value: the index strings "0", "1", ..., not the array's elements. -/
def forInKeys (l : List String) : List String :=
  (List.range l.length).map toString

/-- No two elements of the list are SameValueZero-equal (JavaScript `Set`
construction deduplicates under SameValueZero, so every real set value
satisfies this). -/
def distinctSVZ : List JSValue → Bool
  | [] => true
  | x :: xs => !(xs.any (fun y => sameValueZero x y)) && distinctSVZ xs

/-- Depth-bounded check that every Set anywhere inside the value has
SameValueZero-distinct elements (fuel 0 reports true; `wfSets` quantifies
over all budgets). -/
def wfSetsF : ℕ → JSValue → Bool
  | 0, _ => true
  | m + 1, .arr _ es ps => es.all (wfSetsF m) && ps.all (fun p => wfSetsF m p.2)
  | m + 1, .tarr _ _ _ ps => ps.all (fun p => wfSetsF m p.2)
  | m + 1, .obj _ _ ps => ps.all (fun p => wfSetsF m p.2)
  | m + 1, .map _ es ps =>
      es.all (fun e => wfSetsF m e.1 && wfSetsF m e.2) && ps.all (fun p => wfSetsF m p.2)
  | m + 1, .set _ es ps =>
      distinctSVZ es && es.all (wfSetsF m) && ps.all (fun p => wfSetsF m p.2)
  | _ + 1, _ => true

/-- A value all of whose Set subvalues are genuine JavaScript sets
(SameValueZero-distinct elements).  Every value constructible by the
JavaScript runtime satisfies this. -/
def wfSets (v : JSValue) : Prop := ∀ m, wfSetsF m v = true


/-! ### Basic characterizations -/

theorem bool_eq_of_iff {a b : Bool} (h : a = true ↔ b = true) : a = b := by
  cases a <;> cases b <;> simp_all

theorem isNanNum_num (a : JSNum) : isNanNum (.num a) = a.isNaN := by
  cases a <;> rfl

theorem isNanNum_eq_true_iff (x : JSValue) : isNanNum x = true ↔ x = .num .nan := by
  cases x <;> simp [isNanNum]
  rename_i n; cases n <;> simp [JSNum.isNaN]

theorem numStrictEq_iff (n m : JSNum) :
    numStrictEq n m = true ↔ (n.isNaN = false ∧ m.isNaN = false ∧ n = m) := by
  cases n <;> cases m <;> simp [numStrictEq, JSNum.isNaN]

/-- Strict equality holds exactly between two non-NaN values with the same
identity tag. -/
theorem jsStrictEq_iff (x y : JSValue) :
    jsStrictEq x y = true ↔
      (isNanNum x = false ∧ isNanNum y = false ∧ canon x = canon y) := by
  cases x <;> cases y <;>
    simp [jsStrictEq, canon, isNanNum, numStrictEq_iff]
  rename_i n m
  cases n <;> cases m <;> simp [JSNum.isNaN]

theorem jsStrictEq_symm (x y : JSValue) : jsStrictEq x y = jsStrictEq y x := by
  apply bool_eq_of_iff
  rw [jsStrictEq_iff, jsStrictEq_iff]
  tauto

theorem canon_eq_vnum_nan_iff (x : JSValue) : canon x = .vnum .nan ↔ x = .num .nan := by
  cases x <;> simp [canon]

/-! ### The unordered reconciliation helper -/

theorem removeFirst?_eq_none_iff (B : List JSValue) (x : JSValue) :
    removeFirst? B x = none ↔ ∀ y ∈ B, jsStrictEq y x = false := by
  induction B with
  | nil => simp [removeFirst?]
  | cons y ys ih =>
    simp only [removeFirst?]
    cases hy : jsStrictEq y x with
    | true => simp [hy]
    | false => simp [hy, Option.map_eq_none', ih]

theorem removeFirst?_eq_some (B : List JSValue) (x : JSValue) :
    ∀ B', removeFirst? B x = some B' →
      isNanNum x = false ∧
        Multiset.ofList (B.map canon) = canon x ::ₘ Multiset.ofList (B'.map canon) := by
  induction B with
  | nil => intro B' h; simp [removeFirst?] at h
  | cons y ys ih =>
    intro B' h
    simp only [removeFirst?] at h
    cases hy : jsStrictEq y x with
    | true =>
      rw [hy] at h
      simp only [if_true, Option.some.injEq] at h
      subst h
      obtain ⟨hyn, hxn, hc⟩ := (jsStrictEq_iff y x).mp hy
      exact ⟨hxn, by simp [hc]⟩
    | false =>
      rw [hy] at h
      simp only [Bool.false_eq_true, if_false, Option.map_eq_some'] at h
      obtain ⟨B'', hB'', rfl⟩ := h
      obtain ⟨hxn, hmul⟩ := ih B'' hB''
      refine ⟨hxn, ?_⟩
      simp only [List.map_cons, ← Multiset.cons_coe, hmul]
      exact Multiset.cons_swap _ _ _

/-- The source's greedy reconciliation succeeds exactly when no element of
`A` is the NaN sentinel (which strict lookup can never find) and the
identity tags of `A` form a sub-multiset of those of `B`. -/
theorem unsorted_identical_iff (A : List JSValue) :
    ∀ B, unsorted_identical A B = true ↔
      ((∀ x ∈ A, isNanNum x = false) ∧
        Multiset.ofList (A.map canon) ≤ Multiset.ofList (B.map canon)) := by
  induction A with
  | nil => intro B; simp [unsorted_identical]
  | cons x A' ih =>
    intro B
    simp only [unsorted_identical]
    cases hr : removeFirst? B x with
    | none =>
      simp only [Bool.false_eq_true, false_iff, not_and]
      intro hnn hle
      have hx : isNanNum x = false := hnn x (List.mem_cons_self x A')
      have hcnt := Multiset.le_iff_count.mp hle (canon x)
      have h1 : 1 ≤ Multiset.count (canon x) (Multiset.ofList ((x :: A').map canon)) := by
        simp [List.map_cons]
      have h0 : Multiset.count (canon x) (Multiset.ofList (B.map canon)) = 0 := by
        rw [Multiset.coe_count]
        rw [List.count_eq_zero]
        intro hmem
        obtain ⟨y, hyB, hyc⟩ := List.mem_map.mp hmem
        have hyn : isNanNum y = false := by
          cases hyn : isNanNum y with
          | false => rfl
          | true =>
            have := (isNanNum_eq_true_iff y).mp hyn
            subst this
            rw [show canon (JSValue.num JSNum.nan) = IdTag.vnum JSNum.nan from rfl] at hyc
            have := (canon_eq_vnum_nan_iff x).mp hyc.symm
            subst this
            simp [isNanNum] at hx
        have : jsStrictEq y x = true := (jsStrictEq_iff y x).mpr ⟨hyn, hx, hyc⟩
        have := (removeFirst?_eq_none_iff B x).mp hr y hyB
        simp [this] at *
      omega
    | some B' =>
      obtain ⟨hxn, hmul⟩ := removeFirst?_eq_some B x B' hr
      rw [ih B']
      constructor
      · rintro ⟨hnn, hle⟩
        refine ⟨?_, ?_⟩
        · intro z hz
          rcases List.mem_cons.mp hz with rfl | hz'
          · exact hxn
          · exact hnn z hz'
        · rw [hmul]
          simp only [List.map_cons, ← Multiset.cons_coe]
          exact Multiset.cons_le_cons _ hle
      · rintro ⟨hnn, hle⟩
        refine ⟨fun z hz => hnn z (List.mem_cons_of_mem _ hz), ?_⟩
        rw [hmul] at hle
        simp only [List.map_cons, ← Multiset.cons_coe] at hle
        exact (Multiset.cons_le_cons_iff _).mp hle

/-- With equally many keys on both sides, the greedy reconciliation is
symmetric. -/
theorem unsorted_identical_symm (A B : List JSValue) (hlen : A.length = B.length) :
    unsorted_identical A B = unsorted_identical B A := by
  apply bool_eq_of_iff
  rw [unsorted_identical_iff, unsorted_identical_iff]
  have key : ∀ X Y : List JSValue, X.length = Y.length →
      (∀ x ∈ X, isNanNum x = false) →
      Multiset.ofList (X.map canon) ≤ Multiset.ofList (Y.map canon) →
      (∀ y ∈ Y, isNanNum y = false) ∧
        Multiset.ofList (Y.map canon) ≤ Multiset.ofList (X.map canon) := by
    intro X Y hl hnn hle
    have hcard : Multiset.card (Multiset.ofList (Y.map canon)) ≤
        Multiset.card (Multiset.ofList (X.map canon)) := by
      simp [Multiset.coe_card, hl]
    have heq := Multiset.eq_of_le_of_card_le hle hcard
    constructor
    · intro y hy
      cases hyn : isNanNum y with
      | false => rfl
      | true =>
        exfalso
        have hy' := (isNanNum_eq_true_iff y).mp hyn
        subst hy'
        have hmem : IdTag.vnum JSNum.nan ∈ Multiset.ofList (Y.map canon) := by
          simp only [Multiset.mem_coe]
          exact List.mem_map.mpr ⟨_, hy, rfl⟩
        rw [← heq] at hmem
        simp only [Multiset.mem_coe] at hmem
        obtain ⟨z, hzX, hzc⟩ := List.mem_map.mp hmem
        have := (canon_eq_vnum_nan_iff z).mp hzc
        subst this
        have := hnn _ hzX
        simp [isNanNum] at this
    · rw [heq]
  constructor
  · rintro ⟨h1, h2⟩; exact key A B hlen h1 h2
  · rintro ⟨h1, h2⟩; exact key B A hlen.symm h1 h2

/-- A NaN key on the first side makes the reconciliation fail. -/
theorem unsorted_identical_nan (A B : List JSValue) (h : JSValue.num .nan ∈ A) :
    unsorted_identical A B = false := by
  cases hu : unsorted_identical A B with
  | false => rfl
  | true =>
    exfalso
    have := ((unsorted_identical_iff A B).mp hu).1 _ h
    simp [isNanNum] at this

/-! ### The sorted reconciliation helper and the comparison loop -/

/-- `sorted_identical` is exact list equality. -/
theorem sorted_identical_iff (a : List String) :
    ∀ b, sorted_identical a b = true ↔ a = b := by
  induction a with
  | nil =>
    intro b; cases b <;> simp [sorted_identical]
  | cons x xs ih =>
    intro b
    cases b with
    | nil => simp [sorted_identical]
    | cons y ys =>
      have ih' := ih ys
      simp only [sorted_identical, Bool.and_eq_true, beq_iff_eq, List.all_eq_true] at ih' ⊢
      simp only [List.length_cons, List.zip_cons_cons, List.cons.injEq]
      constructor
      · rintro ⟨hlen, hall⟩
        have hx : x = y := by
          have := hall (x, y) (List.mem_cons_self _ _)
          simpa using this
        refine ⟨hx, ih'.mp ⟨by omega, ?_⟩⟩
        intro p hp
        exact hall p (List.mem_cons_of_mem _ hp)
      · rintro ⟨rfl, rfl⟩
        refine ⟨rfl, ?_⟩
        intro p hp
        rcases List.mem_cons.mp hp with rfl | hp'
        · rfl
        · exact (ih'.mpr rfl).2 p hp'

/-- The comparison loop returns a true verdict exactly when every pair
compares to a true verdict. -/
theorem seqEqual_eq_ok_true_iff (f : JSValue → JSValue → EvalResult)
    (ps : List (JSValue × JSValue)) :
    seqEqual f ps = .ok true ↔ ∀ p ∈ ps, f p.1 p.2 = .ok true := by
  induction ps with
  | nil => simp [seqEqual]
  | cons p rest ih =>
    simp only [seqEqual]
    cases h : f p.1 p.2 with
    | ok b =>
      cases b with
      | true => simp [h, ih]
      | false => simp [h]
    | typeError => simp [h]
    | outOfFuel => simp [h]

/-! ### Claims C1 to C4 and C7 -/

/-- C1 (counterexample): the claim says `equal(3, "3")` is false regardless
of the coercion flag; with `allow_type_coercion = true` (the default) the
loose short-circuit accepts it, so the call returns true. -/
theorem claim1_counterexample :
    equalF 1 ⟨true, false⟩ (.num (.finite 3)) (.str "3") = .ok true := by decide

/-- C1 (amended): with `allow_type_coercion = false`, a comparison between
a String and a non-String value never returns true; whenever the loose
comparison itself completes (it can throw while stringifying a composite
containing a symbol), the call returns false.  With the flag true the
loose short-circuit alone decides, so `equal(3, "3")` is true (see the
counterexample). -/
theorem claim1_string_noncoercion_amended :
    ∀ (c : Config) (s : String) (b : JSValue) (tb : String),
      c.allow_type_coercion = false → get_type b = some tb → tb ≠ "String" →
      (∀ m, equalF m c (.str s) b ≠ .ok true ∧ equalF m c b (.str s) ≠ .ok true) ∧
      (∀ m l, jsLooseEqF (m + 1) (.str s) b = .ok l →
          equalF (m + 1) c (.str s) b = .ok false) ∧
      (∀ m l, jsLooseEqF (m + 1) b (.str s) = .ok l →
          equalF (m + 1) c b (.str s) = .ok false) := by
  intro c s b tb hc hb htb
  have hb_not_str : ∀ s', b ≠ .str s' := by
    intro s' h
    subst h
    simp only [get_type, Option.some.injEq] at hb
    exact htb hb.symm
  have hse : jsStrictEq (.str s) b = false := by
    cases b <;> first
      | rfl
      | exact absurd rfl (hb_not_str _)
  have hse' : jsStrictEq b (.str s) = false := by
    rw [jsStrictEq_symm]; exact hse
  have hbeq1 : (("String" : String) == tb) = false :=
    beq_eq_false_iff_ne.mpr (Ne.symm htb)
  have hbeq2 : ((tb : String) == "String") = false :=
    beq_eq_false_iff_ne.mpr htb
  have hgs : get_type (JSValue.str s) = some "String" := rfl
  have hfwd : ∀ m l, jsLooseEqF (m + 1) (.str s) b = .ok l →
      equalF (m + 1) c (.str s) b = .ok false := by
    intro m l hl
    simp only [equalF, hse, Bool.false_eq_true, if_false, hgs, hb, hl, hc,
      hbeq1, beq_self_eq_true, Bool.not_true, Bool.false_or, Bool.or_false,
      Bool.false_and, Bool.and_false, Bool.or_self, bne, Bool.not_false,
      if_true, ite_self]
  have hbwd : ∀ m l, jsLooseEqF (m + 1) b (.str s) = .ok l →
      equalF (m + 1) c b (.str s) = .ok false := by
    intro m l hl
    simp only [equalF, hse', Bool.false_eq_true, if_false, hgs, hb, hl, hc,
      hbeq2, beq_self_eq_true, Bool.not_true, Bool.false_or, Bool.or_false,
      Bool.false_and, Bool.and_false, Bool.or_self, bne, Bool.not_false,
      if_true, ite_self]
  refine ⟨?_, hfwd, hbwd⟩
  intro m
  cases m with
  | zero => exact ⟨by simp [equalF], by simp [equalF]⟩
  | succ m =>
    constructor
    · cases hl : jsLooseEqF (m + 1) (.str s) b with
      | ok l => rw [hfwd m l hl]; simp
      | typeError =>
          simp [equalF, hse, hgs, hb, hl]
      | outOfFuel =>
          simp [equalF, hse, hgs, hb, hl]
    · cases hl : jsLooseEqF (m + 1) b (.str s) with
      | ok l => rw [hbwd m l hl]; simp
      | typeError =>
          simp [equalF, hse', hgs, hb, hl]
      | outOfFuel =>
          simp [equalF, hse', hgs, hb, hl]

/-- C1 (witness): the amended theorem applied at `3` versus `"3"` with
coercion disabled. -/
theorem claim1_witness :
    equalF 1 ⟨false, false⟩ (.str "3") (.num (.finite 3)) = .ok false ∧
    equalF 1 ⟨false, false⟩ (.num (.finite 3)) (.str "3") = .ok false := by
  have h := claim1_string_noncoercion_amended ⟨false, false⟩ "3" (.num (.finite 3))
    "Number" rfl rfl (by decide)
  exact ⟨h.2.1 0 true (by decide), h.2.2 0 true (by decide)⟩

/-- C2 (counterexample): the claim says that with `allow_type_coercion =
false`, `equal(3, 3n)` is false; in the source the coercion guard also
accepts any loosely-equal pair in which neither side is a String, so the
call returns true even with the flag off. -/
theorem claim2_counterexample :
    equalF 1 ⟨false, false⟩ (.num (.finite 3)) (.bigint 3) = .ok true := by decide

/-- C2 (amended): `equal(3, 3n)` returns true under every setting of the
two flags: the number/big-integer pair is loosely equal and neither side
is a String, so the guard's third disjunct accepts it regardless of
`allow_type_coercion`. -/
theorem claim2_number_bigint_amended :
    ∀ (n : ℕ) (c : Config), equalF (n + 1) c (.num (.finite 3)) (.bigint 3) = .ok true := by
  intro n c
  obtain ⟨a, p⟩ := c
  cases a <;> cases p <;> rfl

/-- C3 (code bug): the classifier reads `a.constructor.name`, which throws
a `TypeError` on null and undefined, so `equal(null, undefined)` (and any
non-identical pair with null or undefined on one side) throws instead of
returning a boolean, contradicting the claimed totality. -/
theorem claim3_null_undefined_throws :
    get_type .null = none ∧ get_type .undefined = none ∧
    ∀ (n : ℕ) (c : Config), equalF (n + 1) c .null .undefined = .typeError :=
  ⟨rfl, rfl, fun _ _ => rfl⟩

/-- C4 (code bug): the registration loop `for (let t in [...names])`
iterates the index keys "0".."8" of the name array, not the names, so no
typed-array constructor name is ever registered and typed arrays fall
through to the Object rule.  Concretely: two one-element Uint8Arrays with
equal elements, one carrying an extra named property, compare false under
`check_all_properties = false` (the Object rule sees key sets ["0","x"]
versus ["0"]), while the Array rule the claim describes — shown on the
equivalent plain arrays — ignores the extra property and returns true. -/
theorem claim4_typed_arrays_fall_back_to_object_rule :
    typedArrayNames.all (fun nm => !((forInKeys typedArrayNames).contains nm)) = true
    ∧ equalF 2 defaultConfig
        (.tarr 0 .uint8 [.finite 1] [("x", .num (.finite 5))])
        (.tarr 1 .uint8 [.finite 1] []) = .ok false
    ∧ equalF 2 defaultConfig
        (.arr 0 [.num (.finite 1)] [("x", .num (.finite 5))])
        (.arr 1 [.num (.finite 1)] []) = .ok true :=
  ⟨by decide, by decide, by decide⟩

/-- C7: on two Numbers the engine returns true exactly for relationally
equal values or two NaN sentinels: `equal(NaN, NaN)` is true (the only
Number case decided by the dispatched predicate, the rest being settled
by the identity and relational short-circuits), `equal(Infinity,
Infinity)` is true, and `equal(Infinity, -Infinity)` is false. -/
theorem claim7_nan_and_infinities :
    (∀ (n : ℕ) (c : Config) (x y : JSNum),
      equalF (n + 1) c (.num x) (.num y) = .ok (numEqJS x y || (x.isNaN && y.isNaN)))
    ∧ (∀ (n : ℕ) (c : Config), equalF (n + 1) c (.num .nan) (.num .nan) = .ok true)
    ∧ (∀ (n : ℕ) (c : Config),
        equalF (n + 1) c (.num (.inf true)) (.num (.inf true)) = .ok true)
    ∧ (∀ (n : ℕ) (c : Config),
        equalF (n + 1) c (.num (.inf true)) (.num (.inf false)) = .ok false) := by
  refine ⟨?_, fun _ _ => rfl, fun _ _ => rfl, fun _ _ => rfl⟩
  intro n c x y
  cases hs : numStrictEq x y with
  | true =>
    simp [equalF, jsStrictEq, hs, numEqJS]
  | false =>
    simp [equalF, jsStrictEq, hs, numEqJS, get_type, jsLooseEqF, isComposite,
      isNullish, toPrimF, debool, loosePrimCore, dispatchTest, numberTest]

/-! ### Unfolding lemmas for Map comparisons -/

/-- On two distinct Map objects the prelude falls through to the Map
predicate: identity fails (distinct references), loose equality on two
objects is reference equality, and the constructors agree. -/
theorem equalF_map_unfold (n : ℕ) (c : Config) (ra : ℕ) (ea : List (JSValue × JSValue))
    (pa : List (String × JSValue)) (rb : ℕ) (eb : List (JSValue × JSValue))
    (pb : List (String × JSValue)) (hne : ra ≠ rb) :
    equalF (n + 1) c (.map ra ea pa) (.map rb eb pb) =
      mapTestOn c (equalF n c) (.map ra ea pa) (.map rb eb pb) := by
  have hs : jsStrictEq (JSValue.map ra ea pa) (JSValue.map rb eb pb) = false := by
    simp [jsStrictEq, hne]
  simp [equalF, hs, get_type, jsLooseEqF, isComposite, dispatchTest]

/-- What a true verdict of the Map predicate entails: equal sizes, a
successful key reconciliation, and a true verdict on every per-key value
pair. -/
theorem mapTestOn_ok_true_parts (c : Config) (eqF : JSValue → JSValue → EvalResult)
    (ra : ℕ) (ea : List (JSValue × JSValue)) (pa : List (String × JSValue))
    (rb : ℕ) (eb : List (JSValue × JSValue)) (pb : List (String × JSValue))
    (h : mapTestOn c eqF (.map ra ea pa) (.map rb eb pb) = .ok true) :
    ea.length = eb.length ∧
      unsorted_identical (ea.map Prod.fst) (eb.map Prod.fst) = true ∧
      ∀ k ∈ ea.map Prod.fst,
        eqF (mapGet (.map ra ea pa) k) (mapGet (.map rb eb pb) k) = .ok true := by
  simp only [mapTestOn] at h
  cases hlen : (ea.length != eb.length) with
  | true => rw [hlen] at h; simp at h
  | false =>
    rw [hlen] at h
    simp only [Bool.false_eq_true, if_false] at h
    have hlen' : ea.length = eb.length := by
      have := (bne_iff_ne (a := ea.length) (b := eb.length))
      cases hd : decide (ea.length = eb.length) <;> simp_all
    have hrest : (if unsorted_identical (ea.map Prod.fst) (eb.map Prod.fst) then
        seqEqual eqF ((ea.map Prod.fst).map fun k =>
          (mapGet (.map ra ea pa) k, mapGet (.map rb eb pb) k))
        else .ok false) = .ok true := by
      cases hca : c.check_all_properties with
      | false => rw [hca] at h; simpa using h
      | true =>
        rw [hca] at h
        simp only [if_true] at h
        cases hob : objectTestOn eqF (.map ra ea pa) (.map rb eb pb) with
        | ok bb =>
          cases bb with
          | true => rw [hob] at h; exact h
          | false => rw [hob] at h; simp at h
        | typeError => rw [hob] at h; simp at h
        | outOfFuel => rw [hob] at h; simp at h
    cases hui : unsorted_identical (ea.map Prod.fst) (eb.map Prod.fst) with
    | false => rw [hui] at hrest; simp at hrest
    | true =>
      rw [hui] at hrest
      simp only [if_true] at hrest
      refine ⟨hlen', rfl, ?_⟩
      have hall := (seqEqual_eq_ok_true_iff _ _).mp hrest
      intro k hk
      exact hall _ (List.mem_map.mpr ⟨k, hk, rfl⟩)

/-! ### Claims C5 and C10 -/

/-- C5: a true verdict between two distinct Map objects requires the two
key lists to reconcile as an unordered multiset under reference and
primitive identity — formally, no key is NaN and the multisets of
identity tags coincide — and every per-key value pair to compare true
recursively; two maps whose keys are distinct empty-object references
with matching shapes compare false. -/
theorem claim5_map_identity_keys :
    (∀ (n : ℕ) (c : Config) (ra rb : ℕ) (ea eb : List (JSValue × JSValue))
        (pa pb : List (String × JSValue)), ra ≠ rb →
        equalF (n + 1) c (.map ra ea pa) (.map rb eb pb) = .ok true →
        ((∀ k ∈ ea.map Prod.fst, isNanNum k = false) ∧
          Multiset.ofList ((ea.map Prod.fst).map canon) =
            Multiset.ofList ((eb.map Prod.fst).map canon) ∧
          ∀ k ∈ ea.map Prod.fst,
            equalF n c (mapGet (.map ra ea pa) k) (mapGet (.map rb eb pb) k) = .ok true))
    ∧ equalF 2 defaultConfig
        (.map 0 [(.obj 10 "Object" [], .num (.finite 3)),
                 (.obj 11 "Object" [], .num (.finite 2))] [])
        (.map 1 [(.obj 12 "Object" [], .num (.finite 2)),
                 (.obj 13 "Object" [], .num (.finite 3))] [])
        = .ok false := by
  constructor
  · intro n c ra rb ea eb pa pb hne h
    rw [equalF_map_unfold n c ra ea pa rb eb pb hne] at h
    obtain ⟨hlen, hui, hvals⟩ := mapTestOn_ok_true_parts _ _ _ _ _ _ _ _ h
    obtain ⟨hnn, hle⟩ := (unsorted_identical_iff _ _).mp hui
    refine ⟨hnn, ?_, hvals⟩
    apply Multiset.eq_of_le_of_card_le hle
    simp [hlen]
  · decide

/-- C5 (witness): two distinct one-entry maps keyed by the same symbol
compare true, and the extracted conclusions hold for them. -/
theorem claim5_witness :
    (∀ k ∈ ([((JSValue.sym 0), JSValue.num (.finite 1))].map Prod.fst),
        isNanNum k = false) ∧
    Multiset.ofList ((([((JSValue.sym 0), JSValue.num (.finite 1))]).map Prod.fst).map canon) =
      Multiset.ofList ((([((JSValue.sym 0), JSValue.num (.finite 1))]).map Prod.fst).map canon) ∧
    ∀ k ∈ ([((JSValue.sym 0), JSValue.num (.finite 1))].map Prod.fst),
      equalF 1 defaultConfig
        (mapGet (.map 3 [((JSValue.sym 0), JSValue.num (.finite 1))] []) k)
        (mapGet (.map 4 [((JSValue.sym 0), JSValue.num (.finite 1))] []) k) = .ok true :=
  claim5_map_identity_keys.1 1 defaultConfig 3 4
    [((JSValue.sym 0), JSValue.num (.finite 1))]
    [((JSValue.sym 0), JSValue.num (.finite 1))] [] []
    (by decide) (by decide)

/-- C10: between two distinct Maps, a NaN key on the first side forces a
false verdict (the reconciliation's strict `indexOf` lookup can never
match NaN), while two distinct Sets that each contain NaN can still
compare true, because `Set.prototype.has` uses SameValueZero, under which
NaN matches itself. -/
theorem claim10_nan_key_asymmetry :
    (∀ (n : ℕ) (c : Config) (ra rb : ℕ) (ea eb : List (JSValue × JSValue))
        (pa pb : List (String × JSValue)), ra ≠ rb →
        (JSValue.num .nan) ∈ ea.map Prod.fst →
        equalF n c (.map ra ea pa) (.map rb eb pb) ≠ .ok true)
    ∧ equalF 2 defaultConfig (.set 0 [.num .nan, .num (.finite 1)] [])
        (.set 1 [.num (.finite 1), .num .nan] []) = .ok true := by
  constructor
  · intro n c ra rb ea eb pa pb hne hnan h
    cases n with
    | zero => simp [equalF] at h
    | succ n =>
      rw [equalF_map_unfold n c ra ea pa rb eb pb hne] at h
      obtain ⟨_, hui, _⟩ := mapTestOn_ok_true_parts _ _ _ _ _ _ _ _ h
      rw [unsorted_identical_nan _ _ hnan] at hui
      simp at hui
  · decide

/-- C10 (witness): even two maps with syntactically identical NaN-keyed
entries compare not-true. -/
theorem claim10_witness :
    equalF 1 defaultConfig (.map 0 [(.num .nan, .num (.finite 1))] [])
      (.map 1 [(.num .nan, .num (.finite 1))] []) ≠ .ok true :=
  claim10_nan_key_asymmetry.1 1 defaultConfig 0 1 [(.num .nan, .num (.finite 1))]
    [(.num .nan, .num (.finite 1))] [] [] (by decide) (by simp)

/-! ### The key sort -/

theorem charListLe_total : ∀ as bs : List Char, charListLe as bs = true ∨ charListLe bs as = true := by
  intro as
  induction as with
  | nil => intro bs; left; rfl
  | cons a as ih =>
    intro bs
    cases bs with
    | nil => right; rfl
    | cons b bs =>
      rcases Nat.lt_trichotomy a.toNat b.toNat with h | h | h
      · left; simp [charListLe, h]
      · have h' : ¬ a.toNat < b.toNat := by omega
        have h'' : ¬ b.toNat < a.toNat := by omega
        rcases ih bs with hl | hr
        · left; simp [charListLe, h', h'', hl]
        · right; simp [charListLe, h', h'', hr]
      · right; simp [charListLe, h]

theorem charListLe_trans : ∀ as bs cs : List Char,
    charListLe as bs = true → charListLe bs cs = true → charListLe as cs = true := by
  intro as
  induction as with
  | nil => intro bs cs _ _; rfl
  | cons a as ih =>
    intro bs cs h1 h2
    cases bs with
    | nil => simp [charListLe] at h1
    | cons b bs =>
      cases cs with
      | nil => simp [charListLe] at h2
      | cons c cs =>
        simp only [charListLe] at h1 h2 ⊢
        by_cases hab : a.toNat < b.toNat <;> by_cases hbc : b.toNat < c.toNat
        · simp [show a.toNat < c.toNat by omega]
        · by_cases hcb : c.toNat < b.toNat
          · simp [hbc, hcb] at h2
          · have : b.toNat = c.toNat := by omega
            simp [show a.toNat < c.toNat by omega]
        · by_cases hba : b.toNat < a.toNat
          · simp [hab, hba] at h1
          · have : a.toNat = b.toNat := by omega
            simp [show a.toNat < c.toNat by omega]
        · by_cases hba : b.toNat < a.toNat
          · simp [hab, hba] at h1
          · by_cases hcb : c.toNat < b.toNat
            · simp [hbc, hcb] at h2
            · have hac1 : ¬ a.toNat < c.toNat := by omega
              have hac2 : ¬ c.toNat < a.toNat := by omega
              simp only [hab, hba, if_false] at h1
              simp only [hbc, hcb, if_false] at h2
              simp [hac1, hac2, ih bs cs h1 h2]

theorem charListLe_antisymm : ∀ as bs : List Char,
    charListLe as bs = true → charListLe bs as = true → as = bs := by
  intro as
  induction as with
  | nil =>
    intro bs _ h2
    cases bs with
    | nil => rfl
    | cons b bs => simp [charListLe] at h2
  | cons a as ih =>
    intro bs h1 h2
    cases bs with
    | nil => simp [charListLe] at h1
    | cons b bs =>
      simp only [charListLe] at h1 h2
      by_cases hab : a.toNat < b.toNat
      · have : ¬ b.toNat < a.toNat := by omega
        simp [hab, this] at h2
      · by_cases hba : b.toNat < a.toNat
        · simp [hab, hba] at h1
        · have h3 : a.toNat = b.toNat := by omega
          have hchar : a = b := Char.eq_of_val_eq (UInt32.toNat.inj h3)
          simp only [hab, hba, if_false] at h1 h2
          rw [hchar, ih bs h1 h2]

theorem stringToList_inj {s t : String} (h : s.toList = t.toList) : s = t := by
  cases s; cases t
  simp only [String.toList] at h
  rw [h]

instance : IsTotal String (fun s t => strLe s t = true) :=
  ⟨fun s t => charListLe_total s.toList t.toList⟩

instance : IsTrans String (fun s t => strLe s t = true) :=
  ⟨fun _ _ _ h1 h2 => charListLe_trans _ _ _ h1 h2⟩

instance : IsAntisymm String (fun s t => strLe s t = true) :=
  ⟨fun _ _ h1 h2 => stringToList_inj (charListLe_antisymm _ _ h1 h2)⟩

/-- Sorting is invariant under permutation of the input keys. -/
theorem sortStrings_eq_of_perm (l l' : List String) (h : l.Perm l') :
    sortStrings l = sortStrings l' :=
  List.eq_of_perm_of_sorted
    ((List.perm_insertionSort _ l).trans (h.trans (List.perm_insertionSort _ l').symm))
    (List.sorted_insertionSort _ l) (List.sorted_insertionSort _ l')

/-- Property lookup is invariant under permutation of an entry list with
no duplicate keys. -/
theorem find?_key_perm : ∀ {pb qb : List (String × JSValue)}, pb.Perm qb →
    (pb.map Prod.fst).Nodup → ∀ k : String,
    pb.find? (fun p => p.1 == k) = qb.find? (fun p => p.1 == k) := by
  intro pb qb h
  induction h with
  | nil => intro _ _; rfl
  | cons x h ih =>
    intro nd k
    simp only [List.map_cons, List.nodup_cons] at nd
    cases hx : x.1 == k with
    | true => simp [List.find?_cons, hx]
    | false => simp [List.find?_cons, hx, ih nd.2 k]
  | swap x y l =>
    intro nd k
    simp only [List.map_cons, List.nodup_cons, List.mem_cons] at nd
    cases hy : y.1 == k with
    | true =>
      cases hx : x.1 == k with
      | true =>
        exfalso
        have h1 : y.1 = k := by simpa using hy
        have h2 : x.1 = k := by simpa using hx
        exact nd.1 (Or.inl (h1.trans h2.symm))
      | false => simp [List.find?_cons, hx, hy]
    | false =>
      cases hx : x.1 == k with
      | true => simp [List.find?_cons, hx, hy]
      | false => simp [List.find?_cons, hx, hy]
  | trans h1 h2 ih1 ih2 =>
    intro nd k
    refine (ih1 nd k).trans (ih2 ?_ k)
    exact ((h1.map Prod.fst).nodup_iff).mp nd

/-- On two distinct plain objects the prelude falls through to the Object
rule. -/
theorem equalF_obj_unfold (n : ℕ) (c : Config) (ra : ℕ) (pa : List (String × JSValue))
    (rb : ℕ) (pb : List (String × JSValue)) (hne : ra ≠ rb) :
    equalF (n + 1) c (.obj ra "Object" pa) (.obj rb "Object" pb) =
      objectTestOn (equalF n c) (.obj ra "Object" pa) (.obj rb "Object" pb) := by
  have hs : jsStrictEq (JSValue.obj ra "Object" pa) (JSValue.obj rb "Object" pb) = false := by
    simp [jsStrictEq, hne]
  simp [equalF, hs, get_type, jsLooseEqF, isComposite, dispatchTest]

/-- C6: Object comparison sorts each side's own enumerable property names
and demands the sorted lists be identical, so (i) any key-set difference
yields false, (ii) the verdict is invariant under permuting a side's
property insertion order (no JavaScript object has duplicate keys, hence
the no-duplicate hypothesis), and (iii) the spec's example
`equal({a:1,b:2}, {b:2,a:1})` is true. -/
theorem claim6_object_key_order_independence :
    (∀ (n : ℕ) (c : Config) (ra : ℕ) (pa : List (String × JSValue))
        (rb : ℕ) (pb : List (String × JSValue)), ra ≠ rb →
        sortStrings (objKeys (.obj ra "Object" pa)) ≠
          sortStrings (objKeys (.obj rb "Object" pb)) →
        equalF (n + 1) c (.obj ra "Object" pa) (.obj rb "Object" pb) = .ok false)
    ∧ (∀ (n : ℕ) (c : Config) (ra : ℕ) (pa : List (String × JSValue))
        (rb : ℕ) (pb qb : List (String × JSValue)), ra ≠ rb →
        pb.Perm qb → (pb.map Prod.fst).Nodup →
        equalF (n + 1) c (.obj ra "Object" pa) (.obj rb "Object" pb) =
          equalF (n + 1) c (.obj ra "Object" pa) (.obj rb "Object" qb))
    ∧ equalF 2 defaultConfig
        (.obj 0 "Object" [("a", .num (.finite 1)), ("b", .num (.finite 2))])
        (.obj 1 "Object" [("b", .num (.finite 2)), ("a", .num (.finite 1))]) = .ok true := by
  refine ⟨?_, ?_, by decide⟩
  · intro n c ra pa rb pb hne hk
    rw [equalF_obj_unfold n c ra pa rb pb hne]
    have hsi : sorted_identical (sortStrings (objKeys (.obj ra "Object" pa)))
        (sortStrings (objKeys (.obj rb "Object" pb))) = false := by
      cases hs : sorted_identical (sortStrings (objKeys (.obj ra "Object" pa)))
          (sortStrings (objKeys (.obj rb "Object" pb))) with
      | false => rfl
      | true => exact absurd ((sorted_identical_iff _ _).mp hs) hk
    simp only [objectTestOn, hsi, Bool.false_eq_true, if_false]
  · intro n c ra pa rb pb qb hne hperm hnd
    rw [equalF_obj_unfold n c ra pa rb pb hne, equalF_obj_unfold n c ra pa rb qb hne]
    have hsort : sortStrings (objKeys (.obj rb "Object" pb)) =
        sortStrings (objKeys (.obj rb "Object" qb)) := by
      apply sortStrings_eq_of_perm
      simpa [objKeys, objEntries] using hperm.map Prod.fst
    have hget : ∀ k, getProp (.obj rb "Object" pb) k = getProp (.obj rb "Object" qb) k := by
      intro k
      simp only [getProp, objEntries]
      rw [find?_key_perm hperm hnd k]
    simp only [objectTestOn, hsort, hget]

/-- C6 (witness): permuting a two-key object's property order does not
change the verdict. -/
theorem claim6_witness :
    equalF 2 defaultConfig (.obj 0 "Object" [("a", .num (.finite 1))])
        (.obj 1 "Object" [("b", .num (.finite 2)), ("c", .num (.finite 3))]) =
      equalF 2 defaultConfig (.obj 0 "Object" [("a", .num (.finite 1))])
        (.obj 1 "Object" [("c", .num (.finite 3)), ("b", .num (.finite 2))]) :=
  claim6_object_key_order_independence.2.1 1 defaultConfig 0
    [("a", JSValue.num (JSNum.finite 1))] 1
    [("b", JSValue.num (JSNum.finite 2)), ("c", JSValue.num (JSNum.finite 3))]
    [("c", JSValue.num (JSNum.finite 3)), ("b", JSValue.num (JSNum.finite 2))]
    (by decide)
    (List.Perm.swap ("c", JSValue.num (JSNum.finite 3)) ("b", JSValue.num (JSNum.finite 2)) [])
    (by decide)

/-! ### Well-formedness propagation -/

theorem wfSets_undef : wfSets .undefined := fun m => by cases m <;> rfl

theorem wfSets_num (x : JSNum) : wfSets (.num x) := fun m => by cases m <;> rfl

theorem wfSets_arr_elem {r : ℕ} {es : List JSValue} {ps : List (String × JSValue)}
    (h : wfSets (.arr r es ps)) {x : JSValue} (hx : x ∈ es) : wfSets x := by
  intro m
  have hm := h (m + 1)
  simp only [wfSetsF, Bool.and_eq_true, List.all_eq_true] at hm
  exact hm.1 x hx

theorem wfSets_arr_prop {r : ℕ} {es : List JSValue} {ps : List (String × JSValue)}
    (h : wfSets (.arr r es ps)) {p : String × JSValue} (hp : p ∈ ps) : wfSets p.2 := by
  intro m
  have hm := h (m + 1)
  simp only [wfSetsF, Bool.and_eq_true, List.all_eq_true] at hm
  exact hm.2 p hp

theorem wfSets_tarr_prop {r : ℕ} {k : TKind} {es : List JSNum} {ps : List (String × JSValue)}
    (h : wfSets (.tarr r k es ps)) {p : String × JSValue} (hp : p ∈ ps) : wfSets p.2 := by
  intro m
  have hm := h (m + 1)
  simp only [wfSetsF, List.all_eq_true] at hm
  exact hm p hp

theorem wfSets_obj_prop {r : ℕ} {cn : String} {ps : List (String × JSValue)}
    (h : wfSets (.obj r cn ps)) {p : String × JSValue} (hp : p ∈ ps) : wfSets p.2 := by
  intro m
  have hm := h (m + 1)
  simp only [wfSetsF, List.all_eq_true] at hm
  exact hm p hp

theorem wfSets_map_entry {r : ℕ} {es : List (JSValue × JSValue)}
    {ps : List (String × JSValue)} (h : wfSets (.map r es ps))
    {e : JSValue × JSValue} (he : e ∈ es) : wfSets e.1 ∧ wfSets e.2 := by
  constructor <;> intro m
  · have hm := h (m + 1)
    simp only [wfSetsF, Bool.and_eq_true, List.all_eq_true] at hm
    exact (hm.1 e he).1
  · have hm := h (m + 1)
    simp only [wfSetsF, Bool.and_eq_true, List.all_eq_true] at hm
    exact (hm.1 e he).2

theorem wfSets_map_prop {r : ℕ} {es : List (JSValue × JSValue)}
    {ps : List (String × JSValue)} (h : wfSets (.map r es ps))
    {p : String × JSValue} (hp : p ∈ ps) : wfSets p.2 := by
  intro m
  have hm := h (m + 1)
  simp only [wfSetsF, Bool.and_eq_true, List.all_eq_true] at hm
  exact hm.2 p hp

theorem wfSets_set_prop {r : ℕ} {es : List JSValue} {ps : List (String × JSValue)}
    (h : wfSets (.set r es ps)) {p : String × JSValue} (hp : p ∈ ps) : wfSets p.2 := by
  intro m
  have hm := h (m + 1)
  simp only [wfSetsF, Bool.and_eq_true, List.all_eq_true] at hm
  exact hm.2 p hp

theorem wfSets_set_distinct {r : ℕ} {es : List JSValue} {ps : List (String × JSValue)}
    (h : wfSets (.set r es ps)) : distinctSVZ es = true := by
  have hm := h 1
  simp only [wfSetsF, Bool.and_eq_true] at hm
  exact hm.1.1

theorem mem_idxEntries : ∀ {i : ℕ} {l : List JSValue} {p : String × JSValue},
    p ∈ idxEntries i l → p.2 ∈ l := by
  intro i l
  induction l generalizing i with
  | nil => intro p hp; simp [idxEntries] at hp
  | cons x xs ih =>
    intro p hp
    simp only [idxEntries, List.mem_cons] at hp
    rcases hp with rfl | hp
    · exact List.mem_cons_self _ _
    · exact List.mem_cons_of_mem _ (ih hp)

theorem mem_numIdxEntries : ∀ {i : ℕ} {l : List JSNum} {p : String × JSValue},
    p ∈ numIdxEntries i l → ∃ x : JSNum, p.2 = .num x := by
  intro i l
  induction l generalizing i with
  | nil => intro p hp; simp [numIdxEntries] at hp
  | cons x xs ih =>
    intro p hp
    simp only [numIdxEntries, List.mem_cons] at hp
    rcases hp with rfl | hp
    · exact ⟨x, rfl⟩
    · exact ih hp

theorem wfSets_getProp (v : JSValue) (k : String) (h : wfSets v) :
    wfSets (getProp v k) := by
  unfold getProp
  cases hf : (objEntries v).find? (fun p => p.1 == k) with
  | none => exact wfSets_undef
  | some p =>
    have hp : p ∈ objEntries v := List.mem_of_find?_eq_some hf
    cases v with
    | arr r es ps =>
      simp only [objEntries, List.mem_append] at hp
      rcases hp with hp | hp
      · exact wfSets_arr_elem h (mem_idxEntries hp)
      · exact wfSets_arr_prop h hp
    | tarr r kk es ps =>
      simp only [objEntries, List.mem_append] at hp
      rcases hp with hp | hp
      · obtain ⟨x, hx⟩ := mem_numIdxEntries hp
        show wfSets p.2
        rw [hx]; exact wfSets_num x
      · exact wfSets_tarr_prop h hp
    | obj r cn ps => exact wfSets_obj_prop h hp
    | map r es ps => exact wfSets_map_prop h hp
    | set r es ps => exact wfSets_set_prop h hp
    | null => simp [objEntries] at hp
    | undefined => simp [objEntries] at hp
    | bool b => simp [objEntries] at hp
    | num n => simp [objEntries] at hp
    | bigint z => simp [objEntries] at hp
    | str s => simp [objEntries] at hp
    | sym i => simp [objEntries] at hp
    | func i => simp [objEntries] at hp
    | date r t => simp [objEntries] at hp
    | regexp r s f => simp [objEntries] at hp
    | error r msg => simp [objEntries] at hp

theorem wfSets_mapGet (v : JSValue) (k : JSValue) (h : wfSets v) :
    wfSets (mapGet v k) := by
  cases v with
  | map r es ps =>
    simp only [mapGet]
    cases hf : es.find? (fun e => sameValueZero e.1 k) with
    | none => exact wfSets_undef
    | some e => exact (wfSets_map_entry h (List.mem_of_find?_eq_some hf)).2
  | null => exact wfSets_undef
  | undefined => exact wfSets_undef
  | bool b => exact wfSets_undef
  | num n => exact wfSets_undef
  | bigint z => exact wfSets_undef
  | str s => exact wfSets_undef
  | sym i => exact wfSets_undef
  | func i => exact wfSets_undef
  | date r t => exact wfSets_undef
  | regexp r s f => exact wfSets_undef
  | error r msg => exact wfSets_undef
  | arr r es ps => exact wfSets_undef
  | tarr r kk es ps => exact wfSets_undef
  | obj r cn ps => exact wfSets_undef
  | set r es ps => exact wfSets_undef

/-! ### Commutativity of the primitive comparisons -/

theorem lawful_beq_comm {α : Type} [BEq α] [LawfulBEq α] (a b : α) : (a == b) = (b == a) := by
  apply bool_eq_of_iff
  simp only [beq_iff_eq]
  exact eq_comm

theorem numStrictEq_symm (x y : JSNum) : numStrictEq x y = numStrictEq y x := by
  apply bool_eq_of_iff
  rw [numStrictEq_iff, numStrictEq_iff]
  constructor <;> rintro ⟨h1, h2, h3⟩ <;> exact ⟨h2, h1, h3.symm⟩

theorem strBigRes_comm (s : String) (z : ℤ) :
    (match strToBigInt s with | some w => w == z | none => false) =
      (match strToBigInt s with | some w => z == w | none => false) := by
  cases strToBigInt s with
  | none => rfl
  | some w => exact lawful_beq_comm w z

theorem loosePrimCore_symm (x y : JSValue) : loosePrimCore x y = loosePrimCore y x := by
  cases x <;> cases y <;>
    simp [loosePrimCore, numEqJS, numStrictEq_symm, lawful_beq_comm, strBigRes_comm]

theorem dateDiff_comm (t u : JSNum) :
    numEqJS (jsNumSub t u) (.finite 0) = numEqJS (jsNumSub u t) (.finite 0) := by
  cases t <;> cases u <;> try rfl
  · rename_i p q
    by_cases hpq : p = q
    · subst hpq
      simp [jsNumSub, numEqJS, numStrictEq]
    · have hqp : ¬ q = p := fun h => hpq h.symm
      have h1 : (p == q) = false := beq_eq_false_iff_ne.mpr hpq
      have h2 : (q == p) = false := beq_eq_false_iff_ne.mpr hqp
      simp [jsNumSub, numEqJS, numStrictEq, h1, h2]
  · rename_i a b
    simp only [jsNumSub, numEqJS, numStrictEq]
    apply bool_eq_of_iff
    simp only [beq_iff_eq, sub_eq_zero]
    exact eq_comm

theorem numberTest_symm (a b : JSValue) : numberTest a b = numberTest b a := by
  cases a <;> cases b <;> simp [numberTest, Bool.and_comm]

theorem dateTest_symm (a b : JSValue) : dateTest a b = dateTest b a := by
  cases a <;> cases b <;> simp [dateTest]
  exact dateDiff_comm _ _

theorem beq_pair_comm {α β : Type} [BEq α] [LawfulBEq α] [BEq β] [LawfulBEq β]
    (x y : α) (u v : β) : (x == y && u == v) = (y == x && v == u) := by
  rw [lawful_beq_comm x y, lawful_beq_comm u v]

theorem regexpTest_symm (a b : JSValue) : regexpTest a b = regexpTest b a := by
  cases a <;> cases b <;> simp [regexpTest]
  exact beq_pair_comm _ _ _ _

theorem errorTest_symm (a b : JSValue) : errorTest a b = errorTest b a := by
  cases a <;> cases b <;> simp [errorTest]
  exact eq_comm

/-- Loose equality is symmetric (at most one operand is composite in the
conversion branch, so throw and budget outcomes coincide as well). -/
theorem jsLooseEqF_symm (m : ℕ) (a b : JSValue) : jsLooseEqF m a b = jsLooseEqF m b a := by
  have hNC : ∀ v : JSValue, isComposite v = true → isNullish v = false := by
    intro v; cases v <;> simp [isComposite, isNullish]
  unfold jsLooseEqF
  cases hca : isComposite a with
  | true =>
    cases hcb : isComposite b with
    | true => simp [hca, hcb, jsStrictEq_symm a b]
    | false =>
      have hna : isNullish a = false := hNC a hca
      cases hnb : isNullish b with
      | true => simp [hca, hcb, hna, hnb]
      | false =>
        simp only [hca, hcb, hna, hnb, Bool.and_false, Bool.false_and, Bool.and_true,
          Bool.true_and, Bool.false_eq_true, if_false]
        have hpb : toPrimF m b = .val b := by simp [toPrimF, hcb]
        rw [hpb]
        cases hpa : toPrimF m a with
        | val x => simp [loosePrimCore_symm]
        | thrown => rfl
        | spent => rfl
  | false =>
    cases hcb : isComposite b with
    | true =>
      have hnb : isNullish b = false := hNC b hcb
      cases hna : isNullish a with
      | true => simp [hca, hcb, hna, hnb]
      | false =>
        simp only [hca, hcb, hna, hnb, Bool.and_false, Bool.false_and, Bool.and_true,
          Bool.true_and, Bool.false_eq_true, if_false]
        have hpa : toPrimF m a = .val a := by simp [toPrimF, hca]
        rw [hpa]
        cases hpb : toPrimF m b with
        | val x => simp [loosePrimCore_symm]
        | thrown => rfl
        | spent => rfl
    | false =>
      simp only [hca, hcb, Bool.and_false, Bool.false_and, Bool.and_true, Bool.true_and,
        Bool.false_eq_true, if_false]
      have hpa : toPrimF m a = .val a := by simp [toPrimF, hca]
      have hpb : toPrimF m b = .val b := by simp [toPrimF, hcb]
      rw [hpa, hpb]
      simp [loosePrimCore_symm]

/-- SameValueZero is equality of identity tags. -/
theorem svz_iff_canon (x y : JSValue) : sameValueZero x y = true ↔ canon x = canon y := by
  simp only [sameValueZero, Bool.or_eq_true, Bool.and_eq_true]
  constructor
  · rintro (⟨hx, hy⟩ | hs)
    · rw [(isNanNum_eq_true_iff x).mp hx, (isNanNum_eq_true_iff y).mp hy]
    · exact ((jsStrictEq_iff _ _).mp hs).2.2
  · intro hc
    cases hx : isNanNum x with
    | true =>
      left
      have hx' := (isNanNum_eq_true_iff x).mp hx
      subst hx'
      refine ⟨rfl, ?_⟩
      have hy : y = .num .nan := (canon_eq_vnum_nan_iff y).mp (by rw [← hc]; rfl)
      subst hy; rfl
    | false =>
      right
      apply (jsStrictEq_iff _ _).mpr
      refine ⟨hx, ?_, hc⟩
      cases hy : isNanNum y with
      | false => rfl
      | true =>
        exfalso
        have hy' := (isNanNum_eq_true_iff y).mp hy
        subst hy'
        have : x = .num .nan := (canon_eq_vnum_nan_iff x).mp (by rw [hc]; rfl)
        subst this
        simp [isNanNum] at hx

/-- Map lookup only sees the key's identity tag. -/
theorem mapGet_congr (v : JSValue) {k k' : JSValue} (h : jsStrictEq k k' = true) :
    mapGet v k = mapGet v k' := by
  obtain ⟨hknn, hk'nn, hck⟩ := (jsStrictEq_iff _ _).mp h
  cases v <;> simp [mapGet]
  rename_i r es ps
  have hfun : (fun e : JSValue × JSValue => sameValueZero e.1 k) =
      (fun e : JSValue × JSValue => sameValueZero e.1 k') := by
    funext e
    apply bool_eq_of_iff
    rw [svz_iff_canon, svz_iff_canon, hck]
  rw [hfun]

theorem distinctSVZ_iff_nodup (es : List JSValue) :
    distinctSVZ es = true ↔ (es.map canon).Nodup := by
  induction es with
  | nil => simp [distinctSVZ]
  | cons x xs ih =>
    simp only [distinctSVZ, Bool.and_eq_true, Bool.not_eq_true', List.map_cons,
      List.nodup_cons, ih]
    constructor
    · rintro ⟨hany, hnd⟩
      refine ⟨?_, hnd⟩
      intro hmem
      obtain ⟨y, hy, hyc⟩ := List.mem_map.mp hmem
      have : xs.any (fun y => sameValueZero x y) = true :=
        List.any_eq_true.mpr ⟨y, hy, (svz_iff_canon x y).mpr hyc.symm⟩
      rw [this] at hany
      cases hany
    · rintro ⟨hmem, hnd⟩
      refine ⟨?_, hnd⟩
      cases hany : xs.any (fun y => sameValueZero x y) with
      | false => rfl
      | true =>
        exfalso
        obtain ⟨y, hy, hsvz⟩ := List.any_eq_true.mp hany
        exact hmem (List.mem_map.mpr ⟨y, hy, ((svz_iff_canon x y).mp hsvz).symm⟩)

theorem setHas_iff (es : List JSValue) (x : JSValue) :
    setHas es x = true ↔ canon x ∈ es.map canon := by
  simp only [setHas, List.any_eq_true]
  constructor
  · rintro ⟨y, hy, hsvz⟩
    exact List.mem_map.mpr ⟨y, hy, (svz_iff_canon y x).mp hsvz⟩
  · intro hmem
    obtain ⟨y, hy, hyc⟩ := List.mem_map.mp hmem
    exact ⟨y, hy, (svz_iff_canon y x).mpr hyc⟩

/-- For genuine sets (distinct elements) of equal size, one-directional
SameValueZero containment is symmetric. -/
theorem setAll_symm (ea eb : List JSValue) (hlen : ea.length = eb.length)
    (hda : (ea.map canon).Nodup) (hdb : (eb.map canon).Nodup) :
    (ea.all (fun x => setHas eb x)) = (eb.all (fun x => setHas ea x)) := by
  apply bool_eq_of_iff
  simp only [List.all_eq_true]
  have key : ∀ X Y : List JSValue, X.length = Y.length → (X.map canon).Nodup →
      (∀ x ∈ X, setHas Y x = true) → ∀ y ∈ Y, setHas X y = true := by
    intro X Y hl hnd h y hy
    have hsub : (X.map canon) ⊆ (Y.map canon) := by
      intro t ht
      obtain ⟨x, hx, rfl⟩ := List.mem_map.mp ht
      exact (setHas_iff Y x).mp (h x hx)
    have hperm : (X.map canon).Perm (Y.map canon) :=
      (hnd.subperm hsub).perm_of_length_le (by simp [hl])
    rw [setHas_iff]
    exact hperm.symm.subset (List.mem_map.mpr ⟨y, hy, rfl⟩)
  constructor
  · exact fun h => key ea eb hlen hda h
  · exact fun h => key eb ea hlen.symm hdb h

/-- The `check_all_properties` gate returns a true verdict exactly when
the Object check and the continuation both do. -/
theorem gate_ok_true_iff (g r : EvalResult) :
    (match g with | .ok true => r | .ok false => .ok false | e => e) = .ok true ↔
      (g = .ok true ∧ r = .ok true) := by
  cases g with
  | ok bb => cases bb <;> simp
  | typeError => simp
  | outOfFuel => simp

/-! ### Symmetry of the category predicates -/

theorem objectTestOn_symm (eqF : JSValue → JSValue → EvalResult)
    (hsym : ∀ x y, wfSets x → wfSets y → (eqF x y = .ok true ↔ eqF y x = .ok true))
    (a b : JSValue) (ha : wfSets a) (hb : wfSets b) :
    (objectTestOn eqF a b = .ok true ↔ objectTestOn eqF b a = .ok true) := by
  simp only [objectTestOn]
  cases hs : sorted_identical (sortStrings (objKeys a)) (sortStrings (objKeys b)) with
  | false =>
    have hs' : sorted_identical (sortStrings (objKeys b)) (sortStrings (objKeys a)) = false := by
      cases h2 : sorted_identical (sortStrings (objKeys b)) (sortStrings (objKeys a)) with
      | false => rfl
      | true =>
        exfalso
        have := ((sorted_identical_iff _ _).mp h2).symm
        rw [← sorted_identical_iff] at this
        rw [this] at hs
        cases hs
    simp [hs, hs']
  | true =>
    have heq : sortStrings (objKeys a) = sortStrings (objKeys b) :=
      (sorted_identical_iff _ _).mp hs
    have hs' : sorted_identical (sortStrings (objKeys b)) (sortStrings (objKeys a)) = true :=
      (sorted_identical_iff _ _).mpr heq.symm
    simp only [hs, hs', if_true]
    rw [seqEqual_eq_ok_true_iff, seqEqual_eq_ok_true_iff]
    constructor
    · intro hall p hp
      obtain ⟨k, hk, rfl⟩ := List.mem_map.mp hp
      have hk' : k ∈ sortStrings (objKeys a) := by rw [heq]; exact hk
      have hmem := hall _ (List.mem_map.mpr ⟨k, hk', rfl⟩)
      exact (hsym _ _ (wfSets_getProp a k ha) (wfSets_getProp b k hb)).mp hmem
    · intro hall p hp
      obtain ⟨k, hk, rfl⟩ := List.mem_map.mp hp
      have hk' : k ∈ sortStrings (objKeys b) := by rw [← heq]; exact hk
      have hmem := hall _ (List.mem_map.mpr ⟨k, hk', rfl⟩)
      exact (hsym _ _ (wfSets_getProp a k ha) (wfSets_getProp b k hb)).mpr hmem

theorem bne_comm_nat (a b : ℕ) : (a != b) = (b != a) := by
  apply bool_eq_of_iff
  simp only [bne_iff_ne]
  exact ne_comm

theorem arrayTestOn_symm (c : Config) (eqF : JSValue → JSValue → EvalResult)
    (hsym : ∀ x y, wfSets x → wfSets y → (eqF x y = .ok true ↔ eqF y x = .ok true))
    (a b : JSValue) (ha : wfSets a) (hb : wfSets b) :
    (arrayTestOn c eqF a b = .ok true ↔ arrayTestOn c eqF b a = .ok true) := by
  cases a <;> cases b <;> simp only [arrayTestOn] <;> try exact Iff.rfl
  rename_i ra ea pa rb eb pb
  cases hl : (ea.length != eb.length) with
  | true =>
    have hl2 : (eb.length != ea.length) = true := by rw [bne_comm_nat]; exact hl
    simp [hl, hl2]
  | false =>
    have hl2 : (eb.length != ea.length) = false := by rw [bne_comm_nat]; exact hl
    simp only [hl, hl2, Bool.false_eq_true, if_false]
    cases hca : c.check_all_properties with
    | true =>
      simp only [if_true]
      exact objectTestOn_symm eqF hsym _ _ ha hb
    | false =>
      simp only [Bool.false_eq_true, if_false]
      rw [seqEqual_eq_ok_true_iff, seqEqual_eq_ok_true_iff]
      constructor
      · intro hall p hp
        have hp' : p ∈ (ea.zip eb).map Prod.swap := by rw [List.zip_swap]; exact hp
        obtain ⟨q, hq, rfl⟩ := List.mem_map.mp hp'
        have hmm := List.of_mem_zip hq
        have := hall q hq
        exact (hsym q.1 q.2 (wfSets_arr_elem ha hmm.1) (wfSets_arr_elem hb hmm.2)).mp this
      · intro hall p hp
        have hp' : p ∈ (eb.zip ea).map Prod.swap := by rw [List.zip_swap]; exact hp
        obtain ⟨q, hq, rfl⟩ := List.mem_map.mp hp'
        have hmm := List.of_mem_zip hq
        have := hall q hq
        exact (hsym q.1 q.2 (wfSets_arr_elem hb hmm.1) (wfSets_arr_elem ha hmm.2)).mp this

theorem mapTestOn_symm (c : Config) (eqF : JSValue → JSValue → EvalResult)
    (hsym : ∀ x y, wfSets x → wfSets y → (eqF x y = .ok true ↔ eqF y x = .ok true))
    (a b : JSValue) (ha : wfSets a) (hb : wfSets b) :
    (mapTestOn c eqF a b = .ok true ↔ mapTestOn c eqF b a = .ok true) := by
  cases a <;> cases b <;> simp only [mapTestOn] <;> try exact Iff.rfl
  rename_i ra ea pa rb eb pb
  cases hl : (ea.length != eb.length) with
  | true =>
    have hl2 : (eb.length != ea.length) = true := by rw [bne_comm_nat]; exact hl
    simp [hl, hl2]
  | false =>
    have hl2 : (eb.length != ea.length) = false := by rw [bne_comm_nat]; exact hl
    have hlen : ea.length = eb.length := by simpa using hl
    simp only [hl, hl2, Bool.false_eq_true, if_false]
    have hrest : ((if unsorted_identical (ea.map Prod.fst) (eb.map Prod.fst) then
          seqEqual eqF ((ea.map Prod.fst).map (fun k =>
            (mapGet (.map ra ea pa) k, mapGet (.map rb eb pb) k)))
          else .ok false) = .ok true) ↔
        ((if unsorted_identical (eb.map Prod.fst) (ea.map Prod.fst) then
          seqEqual eqF ((eb.map Prod.fst).map (fun k =>
            (mapGet (.map rb eb pb) k, mapGet (.map ra ea pa) k)))
          else .ok false) = .ok true) := by
      have hu : unsorted_identical (ea.map Prod.fst) (eb.map Prod.fst) =
          unsorted_identical (eb.map Prod.fst) (ea.map Prod.fst) :=
        unsorted_identical_symm _ _ (by simp [hlen])
      cases huv : unsorted_identical (ea.map Prod.fst) (eb.map Prod.fst) with
      | false =>
        have huv2 : unsorted_identical (eb.map Prod.fst) (ea.map Prod.fst) = false := by
          rw [← hu]; exact huv
        simp [huv2]
      | true =>
        have huv2 : unsorted_identical (eb.map Prod.fst) (ea.map Prod.fst) = true := by
          rw [← hu]; exact huv
        simp only [huv2, if_true]
        rw [seqEqual_eq_ok_true_iff, seqEqual_eq_ok_true_iff]
        obtain ⟨hnnA, hleA⟩ := (unsorted_identical_iff _ _).mp huv
        obtain ⟨hnnB, hleB⟩ := (unsorted_identical_iff _ _).mp huv2
        constructor
        · intro hall p hp
          obtain ⟨k', hk', rfl⟩ := List.mem_map.mp hp
          have hmem : canon k' ∈ (ea.map Prod.fst).map canon := by
            have h2 : canon k' ∈ Multiset.ofList ((eb.map Prod.fst).map canon) := by
              simp only [Multiset.mem_coe]
              exact List.mem_map.mpr ⟨k', hk', rfl⟩
            have h3 := Multiset.mem_of_le hleB h2
            simpa using h3
          obtain ⟨k, hk, hck⟩ := List.mem_map.mp hmem
          have hstr : jsStrictEq k k' = true :=
            (jsStrictEq_iff _ _).mpr ⟨hnnA k hk, hnnB k' hk', hck⟩
          have hgA := mapGet_congr (JSValue.map ra ea pa) hstr
          have hgB := mapGet_congr (JSValue.map rb eb pb) hstr
          have hv := hall _ (List.mem_map.mpr ⟨k, hk, rfl⟩)
          show eqF (mapGet (JSValue.map rb eb pb) k') (mapGet (JSValue.map ra ea pa) k') =
            .ok true
          rw [← hgA, ← hgB]
          exact (hsym _ _ (wfSets_mapGet _ k ha) (wfSets_mapGet _ k hb)).mp hv
        · intro hall p hp
          obtain ⟨k, hk, rfl⟩ := List.mem_map.mp hp
          have hmem : canon k ∈ (eb.map Prod.fst).map canon := by
            have h2 : canon k ∈ Multiset.ofList ((ea.map Prod.fst).map canon) := by
              simp only [Multiset.mem_coe]
              exact List.mem_map.mpr ⟨k, hk, rfl⟩
            have h3 := Multiset.mem_of_le hleA h2
            simpa using h3
          obtain ⟨k', hk', hck⟩ := List.mem_map.mp hmem
          have hstr : jsStrictEq k' k = true :=
            (jsStrictEq_iff _ _).mpr ⟨hnnB k' hk', hnnA k hk, hck⟩
          have hgA := mapGet_congr (JSValue.map ra ea pa) hstr
          have hgB := mapGet_congr (JSValue.map rb eb pb) hstr
          have hv := hall _ (List.mem_map.mpr ⟨k', hk', rfl⟩)
          show eqF (mapGet (JSValue.map ra ea pa) k) (mapGet (JSValue.map rb eb pb) k) =
            .ok true
          rw [← hgA, ← hgB]
          exact (hsym _ _ (wfSets_mapGet _ k' hb) (wfSets_mapGet _ k' ha)).mp hv
    cases hca : c.check_all_properties with
    | false => simpa using hrest
    | true =>
      simp only [if_true]
      rw [gate_ok_true_iff, gate_ok_true_iff]
      exact and_congr (objectTestOn_symm eqF hsym _ _ ha hb) hrest

theorem setTestOn_symm (c : Config) (eqF : JSValue → JSValue → EvalResult)
    (hsym : ∀ x y, wfSets x → wfSets y → (eqF x y = .ok true ↔ eqF y x = .ok true))
    (a b : JSValue) (ha : wfSets a) (hb : wfSets b) :
    (setTestOn c eqF a b = .ok true ↔ setTestOn c eqF b a = .ok true) := by
  cases a <;> cases b <;> simp only [setTestOn] <;> try exact Iff.rfl
  rename_i ra ea pa rb eb pb
  cases hl : (ea.length != eb.length) with
  | true =>
    have hl2 : (eb.length != ea.length) = true := by rw [bne_comm_nat]; exact hl
    simp [hl, hl2]
  | false =>
    have hl2 : (eb.length != ea.length) = false := by rw [bne_comm_nat]; exact hl
    have hlen : ea.length = eb.length := by simpa using hl
    simp only [hl, hl2, Bool.false_eq_true, if_false]
    have hda : (ea.map canon).Nodup := (distinctSVZ_iff_nodup ea).mp (wfSets_set_distinct ha)
    have hdb : (eb.map canon).Nodup := (distinctSVZ_iff_nodup eb).mp (wfSets_set_distinct hb)
    have hall := setAll_symm ea eb hlen hda hdb
    cases hca : c.check_all_properties with
    | false =>
      rw [hall]
      exact Iff.rfl
    | true =>
      simp only [if_true]
      rw [gate_ok_true_iff, gate_ok_true_iff, hall]
      exact and_congr (objectTestOn_symm eqF hsym _ _ ha hb) Iff.rfl

theorem dispatchTest_symm (c : Config) (eqF : JSValue → JSValue → EvalResult) (ta : String)
    (a b : JSValue)
    (hsym : ∀ x y, wfSets x → wfSets y → (eqF x y = .ok true ↔ eqF y x = .ok true))
    (ha : wfSets a) (hb : wfSets b) :
    (dispatchTest c eqF ta a b = .ok true ↔ dispatchTest c eqF ta b a = .ok true) := by
  unfold dispatchTest
  cases h1 : (ta == "Number") with
  | true => simp only [h1, if_true]; rw [numberTest_symm]
  | false =>
  simp only [h1, Bool.false_eq_true, if_false]
  cases h2 : (ta == "String") with
  | true => simp only [h2, if_true]
  | false =>
  simp only [h2, Bool.false_eq_true, if_false]
  cases h3 : (ta == "Date") with
  | true => simp only [h3, if_true]; rw [dateTest_symm]
  | false =>
  simp only [h3, Bool.false_eq_true, if_false]
  cases h4 : (ta == "RegExp") with
  | true => simp only [h4, if_true]; rw [regexpTest_symm]
  | false =>
  simp only [h4, Bool.false_eq_true, if_false]
  cases h5 : (ta == "Array") with
  | true => simp only [h5, if_true]; exact arrayTestOn_symm c eqF hsym a b ha hb
  | false =>
  simp only [h5, Bool.false_eq_true, if_false]
  cases h6 : (ta == "Map") with
  | true => simp only [h6, if_true]; exact mapTestOn_symm c eqF hsym a b ha hb
  | false =>
  simp only [h6, Bool.false_eq_true, if_false]
  cases h7 : (ta == "Set") with
  | true => simp only [h7, if_true]; exact setTestOn_symm c eqF hsym a b ha hb
  | false =>
  simp only [h7, Bool.false_eq_true, if_false]
  cases h8 : (ta == "Symbol") with
  | true => simp only [h8, if_true]; rw [jsStrictEq_symm a b]
  | false =>
  simp only [h8, Bool.false_eq_true, if_false]
  cases h9 : (ta == "Function") with
  | true => simp only [h9, if_true]; rw [jsStrictEq_symm a b]
  | false =>
  simp only [h9, Bool.false_eq_true, if_false]
  cases h10 : (ta == "Error") with
  | true => simp only [h10, if_true]; rw [errorTest_symm]
  | false =>
  simp only [h10, Bool.false_eq_true, if_false]
  exact objectTestOn_symm eqF hsym a b ha hb

/-- For well-formed values the engine's true verdicts are symmetric at
every recursion budget. -/
theorem equalF_ok_true_symm : ∀ (n : ℕ) (c : Config) (a b : JSValue),
    wfSets a → wfSets b → (equalF n c a b = .ok true ↔ equalF n c b a = .ok true) := by
  intro n
  induction n with
  | zero => intro c a b _ _; simp [equalF]
  | succ n ih =>
    intro c a b ha hb
    simp only [equalF]
    rw [show jsStrictEq b a = jsStrictEq a b from jsStrictEq_symm b a]
    cases hst : jsStrictEq a b with
    | true => simp
    | false =>
      simp only [Bool.false_eq_true, if_false]
      cases hta : get_type a with
      | none =>
        cases htb : get_type b with
        | none => simp
        | some tb => simp
      | some ta =>
        cases htb : get_type b with
        | none => simp
        | some tb =>
          rw [show jsLooseEqF (n + 1) b a = jsLooseEqF (n + 1) a b from
            jsLooseEqF_symm (n + 1) b a]
          cases hl : jsLooseEqF (n + 1) a b with
          | typeError => simp
          | outOfFuel => simp
          | ok l =>
            dsimp only
            have hg : (l && (c.allow_type_coercion || tb == ta
                || (!(tb == "String") && !(ta == "String"))))
                = (l && (c.allow_type_coercion || ta == tb
                || (!(ta == "String") && !(tb == "String")))) := by
              rw [lawful_beq_comm tb ta, Bool.and_comm (!(tb == "String")) (!(ta == "String"))]
            rw [hg]
            cases hgc : (l && (c.allow_type_coercion || ta == tb
                || (!(ta == "String") && !(tb == "String")))) with
            | true => simp
            | false =>
              simp only [Bool.false_eq_true, if_false]
              have hbne : (tb != ta) = (ta != tb) := by
                simp only [bne]
                rw [lawful_beq_comm tb ta]
              rw [hbne]
              cases hne : (ta != tb) with
              | true => simp
              | false =>
                simp only [Bool.false_eq_true, if_false]
                have hta_eq : ta = tb := by
                  have h1 : ¬ (ta ≠ tb) := by rw [← bne_iff_ne]; simp [hne]
                  exact not_not.mp h1
                subst hta_eq
                exact dispatchTest_symm c (equalF n c) ta a b
                  (fun x y hx hy => ih c x y hx hy) ha hb

/-! ### Claim C8 -/

/-- C8 (counterexample): symmetry as stated fails once a comparison can
throw.  Two maps sharing the same two symbol keys in opposite insertion
orders, where one per-key value pair compares false and the other throws
(null on one side makes the classifier throw): in one argument order the
false pair is met first and the call returns false, in the other the
throwing pair is met first and the call throws. -/
theorem claim8_counterexample :
    equalF 3 defaultConfig
        (.map 10 [(.sym 0, .num (.finite 1)), (.sym 1, .null)] [])
        (.map 11 [(.sym 1, .num (.finite 3)), (.sym 0, .num (.finite 2))] []) = .ok false
    ∧ equalF 3 defaultConfig
        (.map 11 [(.sym 1, .num (.finite 3)), (.sym 0, .num (.finite 2))] [])
        (.map 10 [(.sym 0, .num (.finite 1)), (.sym 1, .null)] []) = .typeError :=
  ⟨by decide, by decide⟩

/-- C8 (amended): for well-formed values (every Set subvalue has
SameValueZero-distinct elements, as every runtime-constructible set
does), whenever both argument orders return a boolean, the booleans
agree; the failure mode the counterexample exhibits — one order returning
a boolean while the other throws — is the only deviation from the claim. -/
theorem claim8_symmetry_amended :
    ∀ (n : ℕ) (c : Config) (a b : JSValue) (t u : Bool),
      wfSets a → wfSets b →
      equalF n c a b = .ok t → equalF n c b a = .ok u → t = u := by
  intro n c a b t u ha hb hab hba
  have h := equalF_ok_true_symm n c a b ha hb
  cases t with
  | true =>
    have := h.mp hab
    rw [this] at hba
    exact (EvalResult.ok.injEq _ _).mp hba
  | false =>
    cases u with
    | false => rfl
    | true =>
      exfalso
      have := h.mpr hba
      rw [this] at hab
      exact Bool.noConfusion ((EvalResult.ok.injEq _ _).mp hab)

/-- C8 (witness): the amended theorem applied to a pair that compares
false in both orders. -/
theorem claim8_witness : (false : Bool) = false :=
  claim8_symmetry_amended 1 defaultConfig (.num (.finite 3)) (.num (.finite 4)) false false
    (wfSets_num (.finite 3)) (wfSets_num (.finite 4)) (by decide) (by decide)
